import Mathlib

/-!
Verification of the article-documenter server core: a shallow embedding of
the article/property store (drizzle tables in the schema file), the five
CRUD handlers and the export renderer, together with theorems checking the
natural-language specification against them.

Modelling conventions:
* the two tables are insertion-ordered lists of rows; `serial` primary keys
  are modelled by `nextArticleId` / `nextPropId` counters starting at 1;
* timestamps are abstract `Nat` clock values; every mutating handler takes
  the current time `now` as an explicit argument (the code reads
  `new Date()` / the column default `now()`);
* a `select` without `orderBy` returns rows in table (insertion) order;
* the filesystem effect of the export handler is returned as an explicit
  list of (path, contents) writes; `process.cwd()`, the ISO timestamp and
  the locale date formatter are explicit parameters.
-/

/-- A row of the `articles` table (schema file). -/
structure ArticleRow where
  id : Nat
  title : String
  content : String
  created_at : Nat
  updated_at : Nat
deriving DecidableEq, Repr

/-- A row of the `article_properties` table (schema file). -/
structure PropertyRow where
  id : Nat
  article_id : Nat
  property_name : String
  property_value : String
  created_at : Nat
deriving DecidableEq, Repr

/-- A `(property_name, property_value)` pair, as used both in the input
schemas and in the `properties` field of responses. -/
structure PropPair where
  property_name : String
  property_value : String
deriving DecidableEq, Repr

/-- The `ArticleWithProperties` response shape of the zod schema. -/
structure ArticleWithProperties where
  id : Nat
  title : String
  content : String
  created_at : Nat
  updated_at : Nat
  properties : List PropPair
deriving DecidableEq, Repr

/-- The database state: both tables plus the serial-id counters. -/
structure DB where
  articles : List ArticleRow
  props : List PropertyRow
  nextArticleId : Nat
  nextPropId : Nat
deriving DecidableEq, Repr

/-- Fresh database: empty tables, serial counters at 1. -/
def emptyDB : DB := ⟨[], [], 1, 1⟩

/-- `createArticleInputSchema`: title, content (defaulted to the empty
string by zod before the handler runs), list of properties. -/
structure CreateArticleInput where
  title : String
  content : String
  properties : List PropPair
deriving DecidableEq, Repr

/-- `updateArticleInputSchema`: id plus three optional fields. -/
structure UpdateArticleInput where
  id : Nat
  title : Option String
  content : Option String
  properties : Option (List PropPair)
deriving DecidableEq, Repr

/-- Bulk insert of property rows with consecutive serial ids, as performed
by `db.insert(articlePropertiesTable).values([...])`. -/
def mkPropRows (startId aid now : Nat) : List PropPair → List PropertyRow
  | [] => []
  | p :: rest =>
    ⟨startId, aid, p.property_name, p.property_value, now⟩ ::
      mkPropRows (startId + 1) aid now rest

/-- Projection of a stored property row to the response pair shape. -/
def pairOf (p : PropertyRow) : PropPair := ⟨p.property_name, p.property_value⟩

/-- handlers/create_article.ts: insert the article row (`created_at` from
the column default, `updated_at` set explicitly, both "now"), then bulk
insert the given properties, and return the merged view. Inserting an
empty property list is skipped by the code, which coincides with appending
nothing. -/
def createArticle (db : DB) (input : CreateArticleInput) (now : Nat) :
    DB × ArticleWithProperties :=
  let row : ArticleRow :=
    ⟨db.nextArticleId, input.title, input.content, now, now⟩
  let newProps := mkPropRows db.nextPropId row.id now input.properties
  (⟨db.articles ++ [row], db.props ++ newProps,
    db.nextArticleId + 1, db.nextPropId + newProps.length⟩,
   ⟨row.id, row.title, row.content, now, now, newProps.map pairOf⟩)

/-- handlers/get_article_by_id.ts: select the article joined with its
properties; `null` when no row matches, otherwise the article with the
pairs of every property row whose `article_id` matches. -/
def getArticleById (db : DB) (id : Nat) : Option ArticleWithProperties :=
  match db.articles.find? (fun a => a.id == id) with
  | none => none
  | some a =>
    some ⟨a.id, a.title, a.content, a.created_at, a.updated_at,
      (db.props.filter (fun p => p.article_id == id)).map pairOf⟩

/-- The rows produced by the `leftJoin` in handlers/get_articles.ts: for
each article, one row per matching property, or a single row with a null
property side when it has none. -/
def leftJoinRows (db : DB) : List (ArticleRow × Option PropertyRow) :=
  db.articles.flatMap (fun a =>
    let ps := db.props.filter (fun p => p.article_id == a.id)
    if ps.isEmpty then [(a, none)] else ps.map (fun p => (a, some p)))

/-- Append a property pair to the entry with the given article id. -/
def pushProp (l : List ArticleWithProperties) (aid : Nat) (pr : PropPair) :
    List ArticleWithProperties :=
  l.map (fun e =>
    if e.id == aid then { e with properties := e.properties ++ [pr] } else e)

/-- One step of the grouping loop of handlers/get_articles.ts: create the
map entry for the row's article if absent, then push the property if the
row has one passing the code's truthiness test
(`row.property_id && row.property_name && row.property_value !== null`;
the null test on the non-nullable value column is vacuous here). -/
def addRow (acc : List ArticleWithProperties)
    (row : ArticleRow × Option PropertyRow) : List ArticleWithProperties :=
  let a := row.1
  let acc1 :=
    if acc.any (fun e => e.id == a.id) then acc
    else acc ++ [⟨a.id, a.title, a.content, a.created_at, a.updated_at, []⟩]
  match row.2 with
  | some p =>
    if p.id != 0 && p.property_name != "" then pushProp acc1 a.id (pairOf p)
    else acc1
  | none => acc1

/-- handlers/get_articles.ts: left-join the two tables, then group the
rows by article id in first-occurrence order. -/
def getArticles (db : DB) : List ArticleWithProperties :=
  (leftJoinRows db).foldl addRow []

/-- The SET clause of the UPDATE in handlers/update_article.ts applied to
one row: `updated_at` is always refreshed; title and content change only
when supplied; rows not matching the WHERE clause are untouched. -/
def updRow (input : UpdateArticleInput) (now : Nat) (a : ArticleRow) :
    ArticleRow :=
  if a.id == input.id then
    { a with
      updated_at := now
      title := input.title.getD a.title
      content := input.content.getD a.content }
  else a

/-- handlers/update_article.ts: run the UPDATE (the SET clause `updRow`
on every matching row); throw NotFound when it matched no row; otherwise,
when a properties list was supplied, delete that article's properties and
insert the replacement list; finally re-select the current properties for
the response. The returned `DB` is the state after the writes that
actually executed. -/
def updateArticle (db : DB) (input : UpdateArticleInput) (now : Nat) :
    DB × Except String ArticleWithProperties :=
  let articles1 := db.articles.map (updRow input now)
  let db1 := { db with articles := articles1 }
  match articles1.filter (fun a => a.id == input.id) with
  | [] =>
    (db1, Except.error ("Article with id " ++ toString input.id ++ " not found"))
  | article :: _ =>
    let db2 :=
      match input.properties with
      | none => db1
      | some ps =>
        { db1 with
          props := db1.props.filter (fun p => !(p.article_id == input.id)) ++
            mkPropRows db1.nextPropId input.id now ps
          nextPropId := db1.nextPropId + ps.length }
    let current := db2.props.filter (fun p => p.article_id == input.id)
    (db2, Except.ok ⟨article.id, article.title, article.content,
      article.created_at, article.updated_at, current.map pairOf⟩)

/-- handlers/delete_article.ts: delete the article rows matching the id
(`returning` gives them back; success iff at least one was removed); the
`onDelete: cascade` constraint of the schema removes every property row
owned by a deleted article. -/
def deleteArticle (db : DB) (id : Nat) : DB × Bool :=
  let deleted := db.articles.filter (fun a => a.id == id)
  ({ db with
     articles := db.articles.filter (fun a => !(a.id == id))
     props := db.props.filter
       (fun p => !(deleted.any (fun a => a.id == p.article_id))) },
   deleted.length > 0)

-- sanity checks on small inputs

/-- The character map of `escapeHtml` in the export handler: the five
special characters are replaced (`&` `<` `>` `"` by named references, the
apostrophe by the numeric reference `&#39;`), all others kept. -/
def escapeChar (c : Char) : String :=
  if c == '&' then "&amp;"
  else if c == '<' then "&lt;"
  else if c == '>' then "&gt;"
  else if c == '"' then "&quot;"
  else if c == Char.ofNat 39 then "&#39;"
  else String.singleton c

/-- `escapeHtml` of the export handler. Its DOM shim is a plain object, so
`div.innerHTML` stays the empty string (falsy) and the global
`replace(/[&<>"']/g, ...)` branch always runs: a character-wise map. -/
def escapeHtml (text : String) : String :=
  String.join (text.data.map escapeChar)

/-- Modelled from the spec: the escaping the specification text asks for,
"`&`, `<`, `>`, `\"`, `'` are each replaced with their named
character-reference equivalents" (the named reference for the apostrophe
being `&apos;`). Used only to compare the code's `escapeHtml` against the
words of the spec. -/
def specEscapeChar (c : Char) : String :=
  if c == '&' then "&amp;"
  else if c == '<' then "&lt;"
  else if c == '>' then "&gt;"
  else if c == '"' then "&quot;"
  else if c == Char.ofNat 39 then "&apos;"
  else String.singleton c

/-- Modelled from the spec: character-wise escaping with the five named
references; the spec-side counterpart of `escapeHtml`. -/
def specEscapeHtml (text : String) : String :=
  String.join (text.data.map specEscapeChar)

/-- `Array.prototype.join('\n')`. -/
def joinNl : List String → String
  | [] => ""
  | [s] => s
  | s :: rest => s ++ "\n" ++ joinNl rest

/-- One `<li>` of the table of contents in `generateHTML`. -/
def tocLiHtml (a : ArticleWithProperties) : String :=
  "<li><a href=\"#article-" ++ toString a.id ++ "\">" ++
    escapeHtml a.title ++ "</a></li>"

/-- One `<li>` of the properties block in `generateHTML`: the escaped name,
then `escapeHtml(prop.property_value) || '/'` — the `/` placeholder when
the escaped value is the empty (falsy) string. -/
def propLiHtml (pr : PropPair) : String :=
  "<li><strong>" ++ escapeHtml pr.property_name ++ ":</strong> " ++
    (if escapeHtml pr.property_value == "" then "/"
     else escapeHtml pr.property_value) ++ "</li>"

/-- The `propertiesHtml` template of `generateHTML`: the properties block
when the article has any properties, the empty string otherwise. -/
def propertiesBlock (a : ArticleWithProperties) : String :=
  if a.properties.length > 0 then
    "\n        <div class=\"properties\">\n          <h4>Properties:</h4>\n          <ul>\n            " ++
      joinNl (a.properties.map propLiHtml) ++
      "\n          </ul>\n        </div>\n      "
  else ""

/-- The `<h2>` title line of one article section: the escaped title. -/
def h2Html (a : ArticleWithProperties) : String :=
  "<h2>" ++ escapeHtml a.title ++ "</h2>"

/-- The content `div` of one article section: the raw, unescaped content
spliced in between the fixed markup. -/
def contentHtml (a : ArticleWithProperties) : String :=
  "<div class=\"content\">\n          " ++ a.content ++ "\n        </div>"

/-- One article section of `generateHTML`: anchor, escaped title, locale
date metadata, the properties block, then the raw (unescaped) content. -/
def articleHtml (fmtDate : Nat → String) (a : ArticleWithProperties) : String :=
  "\n      <article id=\"article-" ++ toString a.id ++
    "\" class=\"article\">\n        " ++ h2Html a ++
    "\n        <div class=\"metadata\">\n          <p><strong>Created:</strong> " ++
    fmtDate a.created_at ++
    "</p>\n          <p><strong>Updated:</strong> " ++ fmtDate a.updated_at ++
    "</p>\n        </div>\n        " ++ propertiesBlock a ++
    "\n        " ++ contentHtml a ++
    "\n        <hr>\n      </article>\n    "

/-- The document template of `generateHTML` up to the `toc` insertion
point (doctype, head, the full stylesheet, start of the toc list). -/
def htmlHead : String :=
  "<!DOCTYPE html>\n<html lang=\"en\">\n<head>\n    <meta charset=\"UTF-8\">\n    <meta name=\"viewport\" content=\"width=device-width, initial-scale=1.0\">\n    <title>Articles Export</title>\n    <style>\n        body \x7b\n            font-family: Arial, sans-serif;\n            max-width: 800px;\n            margin: 0 auto;\n            padding: 20px;\n            line-height: 1.6;\n        \x7d\n        .toc \x7b\n            background-color: #f5f5f5;\n            padding: 20px;\n            border-radius: 5px;\n            margin-bottom: 30px;\n        \x7d\n        .toc h2 \x7b\n            margin-top: 0;\n        \x7d\n        .toc ul \x7b\n            list-style-type: none;\n            padding-left: 0;\n        \x7d\n        .toc li \x7b\n            margin-bottom: 5px;\n        \x7d\n        .toc a \x7b\n            text-decoration: none;\n            color: #0066cc;\n        \x7d\n        .toc a:hover \x7b\n            text-decoration: underline;\n        \x7d\n        .article \x7b\n            margin-bottom: 40px;\n        \x7d\n        .article h2 \x7b\n            color: #333;\n            border-bottom: 2px solid #ddd;\n            padding-bottom: 10px;\n        \x7d\n        .metadata \x7b\n            background-color: #f9f9f9;\n            padding: 10px;\n            border-radius: 3px;\n            margin-bottom: 15px;\n        \x7d\n        .metadata p \x7b\n            margin: 5px 0;\n        \x7d\n        .properties \x7b\n            background-color: #fff3cd;\n            padding: 15px;\n            border-radius: 3px;\n            margin-bottom: 15px;\n            border: 1px solid #ffeaa7;\n        \x7d\n        .properties h4 \x7b\n            margin-top: 0;\n            color: #856404;\n        \x7d\n        .properties ul \x7b\n            margin-bottom: 0;\n        \x7d\n        .content \x7b\n            margin-top: 20px;\n        \x7d\n        hr \x7b\n            border: none;\n            height: 1px;\n            background-color: #ddd;\n            margin: 30px 0;\n        \x7d\n    </style>\n</head>\n<body>\n    <div class=\"toc\">\n        <h2>Table of Contents</h2>\n        <ul>\n            "

/-- The document template between the `toc` and `articlesHtml` insertion
points. -/
def htmlMid : String :=
  "\n        </ul>\n    </div>\n    \n    <div class=\"articles\">\n        "

/-- The document template after the `articlesHtml` insertion point. -/
def htmlTail : String := "\n    </div>\n</body>\n</html>"

/-- JS whitespace relevant to this document (`String.prototype.trim`). -/
def isWs (c : Char) : Bool := c == ' ' || c == '\n' || c == '\t' || c == '\r'

/-- `String.prototype.trim`: drop whitespace from both ends. -/
def trimStr (s : String) : String :=
  ⟨((s.data.dropWhile isWs).reverse.dropWhile isWs).reverse⟩

/-- The body of `generateHTML`: the template literal with the table of
contents and the article sections spliced in, then `.trim()`. The template
starts with a newline before `<!DOCTYPE` and ends with a newline and two
spaces after `</html>`. -/
def generateHTML (fmtDate : Nat → String)
    (articles : List ArticleWithProperties) : String :=
  let toc := joinNl (articles.map tocLiHtml)
  let articlesHtml := joinNl (articles.map (articleHtml fmtDate))
  trimStr ("\n" ++ (htmlHead ++ toc ++ htmlMid ++ articlesHtml ++ htmlTail) ++ "\n  ")

/-- `exportFormatSchema`: the two supported formats. -/
inductive ExportFormat
  | html
  | pdf
deriving DecidableEq, Repr

/-- The file extension string interpolated into the export filename. -/
def formatExt : ExportFormat → String
  | .html => "html"
  | .pdf => "pdf"

/-- `exportInputSchema`: format plus optional list of article ids. -/
structure ExportInput where
  format : ExportFormat
  article_ids : Option (List Nat)
deriving DecidableEq, Repr

/-- Step 1 of handlers (export): `input.article_ids &&
input.article_ids.length > 0` selects the `inArray` query; otherwise all
articles are fetched. An absent list, and equally a present but empty
list, fetch every article. -/
def resolveArticles (db : DB) (input : ExportInput) : List ArticleRow :=
  match input.article_ids with
  | some ids =>
    if ids.length > 0 then db.articles.filter (fun a => ids.contains a.id)
    else db.articles
  | none => db.articles

/-- Steps 2-3 of the export handler: fetch the properties of all resolved
articles in one `inArray` query, then pair each article with those whose
`article_id` matches. -/
def combineAwps (db : DB) (arts : List ArticleRow) :
    List ArticleWithProperties :=
  let articleIds := arts.map (fun a => a.id)
  let properties := db.props.filter (fun p => articleIds.contains p.article_id)
  arts.map (fun a =>
    ⟨a.id, a.title, a.content, a.created_at, a.updated_at,
      (properties.filter (fun p => p.article_id == a.id)).map pairOf⟩)

/-- `new Date().toISOString().replace(/[:.]/g, '-')`: a character-wise
replacement of every colon and dot by a dash. -/
def sanitizeTs (iso : String) : String :=
  ⟨iso.data.map (fun c => if c == ':' || c == '.' then '-' else c)⟩

/-- The `{ success, downloadUrl? }` result of the export handler. -/
structure ExportResult where
  success : Bool
  downloadUrl : Option String
deriving DecidableEq, Repr

/-- First-occurrence replacement on character lists
(`String.prototype.replace` with a string pattern). -/
def replaceFirstAux : List Char → List Char → List Char → List Char
  | [], _, _ => []
  | c :: rest, pat, rep =>
    if pat.isPrefixOf (c :: rest) then rep ++ (c :: rest).drop pat.length
    else c :: replaceFirstAux rest pat rep

/-- `String.prototype.replace(pat, rep)` with a string pattern: replace
the first occurrence only. -/
def replaceFirst (s pat rep : String) : String :=
  ⟨replaceFirstAux s.data pat.data rep.data⟩

/-- handlers (export): resolve the target articles, soft-fail on an empty
set, otherwise render the document and write it under
`cwd/exports/articles_<timestamp>.<format>` — except that for `pdf` the
write path gets its `.pdf` replaced by `.html` while the returned
`downloadUrl` keeps the `.pdf` filename. The performed file writes are
returned alongside the result. -/
def exportArticles (cwd : String) (fmtDate : Nat → String) (db : DB)
    (input : ExportInput) (nowIso : String) :
    ExportResult × List (String × String) :=
  let articles := resolveArticles db input
  if articles.length == 0 then (⟨false, none⟩, [])
  else
    let awps := combineAwps db articles
    let htmlContent := generateHTML fmtDate awps
    let exportsDir := cwd ++ "/exports"
    let timestamp := sanitizeTs nowIso
    let filename := "articles_" ++ timestamp ++ "." ++ formatExt input.format
    let filePath := exportsDir ++ "/" ++ filename
    let writes :=
      match input.format with
      | .html => [(filePath, htmlContent)]
      | .pdf => [(replaceFirst filePath ".pdf" ".html", htmlContent)]
    (⟨true, some ("/exports/" ++ filename)⟩, writes)

/-- The constraints `createArticleInputSchema` (zod) enforces before the
create handler runs: non-empty title, non-empty property names. -/
def ValidCreate (i : CreateArticleInput) : Prop :=
  i.title ≠ "" ∧ ∀ p ∈ i.properties, p.property_name ≠ ""

/-- The constraints `updateArticleInputSchema` (zod) enforces before the
update handler runs: a supplied title is non-empty, supplied property
names are non-empty. -/
def ValidUpdate (i : UpdateArticleInput) : Prop :=
  (∀ s, i.title = some s → s ≠ "") ∧
  (∀ ps, i.properties = some ps → ∀ p ∈ ps, p.property_name ≠ "")

/-- The states the store can reach through the mutating handlers, starting
from the fresh database, with zod-validated inputs and a monotone clock.
The second component is the time of the last mutation. -/
inductive Reachable : DB → Nat → Prop
  | init : Reachable emptyDB 0
  | create {db t input now} : Reachable db t → t ≤ now → ValidCreate input →
      Reachable (createArticle db input now).1 now
  | update {db t input now} : Reachable db t → t ≤ now → ValidUpdate input →
      Reachable (updateArticle db input now).1 now
  | del {db t id} : Reachable db t → Reachable (deleteArticle db id).1 t

/-- The store invariants every reachable state satisfies. -/
structure WF (db : DB) (t : Nat) : Prop where
  ids_sorted : (db.articles.map (fun a => a.id)).Pairwise (· < ·)
  ids_lt_next : ∀ a ∈ db.articles, a.id < db.nextArticleId
  prop_next_pos : 1 ≤ db.nextPropId
  prop_id_ne : ∀ p ∈ db.props, p.id ≠ 0
  prop_owner : ∀ p ∈ db.props, ∃ a ∈ db.articles, p.article_id = a.id
  prop_name_ne : ∀ p ∈ db.props, p.property_name ≠ ""
  created_le_updated : ∀ a ∈ db.articles, a.created_at ≤ a.updated_at
  updated_le : ∀ a ∈ db.articles, a.updated_at ≤ t

/-- Bool test: is the first list a prefix of the second. -/
def listPrefixOf : List Char → List Char → Bool
  | [], _ => true
  | _ :: _, [] => false
  | a :: as, b :: bs => a == b && listPrefixOf as bs

/-- Bool test: does the first list occur contiguously in the second. -/
def listInfixOf (t s : List Char) : Bool :=
  match s with
  | [] => t.isEmpty
  | c :: rest => listPrefixOf t (c :: rest) || listInfixOf t rest

/-- Substring containment on strings, the form in which "the rendered
document contains ..." is stated. -/
def containsStr (s sub : String) : Bool := listInfixOf sub.data s.data

/-- The full current property set of an article, as response pairs. -/
def propsFor (db : DB) (aid : Nat) : List PropPair :=
  (db.props.filter (fun p => p.article_id == aid)).map pairOf

/-- The Article-with-properties view of a stored article row. -/
def awpOf (db : DB) (a : ArticleRow) : ArticleWithProperties :=
  ⟨a.id, a.title, a.content, a.created_at, a.updated_at, propsFor db a.id⟩

example :
    (createArticle emptyDB ⟨"T", "c", [⟨"a", "1"⟩, ⟨"a", "2"⟩]⟩ 4).1.props =
      [⟨1, 1, "a", "1", 4⟩, ⟨2, 1, "a", "2", 4⟩] := by decide

example :
    getArticleById (createArticle emptyDB ⟨"T", "c", [⟨"a", "1"⟩]⟩ 4).1 1 =
      some ⟨1, "T", "c", 4, 4, [⟨"a", "1"⟩]⟩ := by decide

example :
    (deleteArticle (createArticle emptyDB ⟨"T", "c", [⟨"a", "1"⟩]⟩ 4).1 1).1 =
      { emptyDB with nextArticleId := 2, nextPropId := 2 } := by decide

example : (deleteArticle emptyDB 7).2 = false := by decide

example :
    getArticles (createArticle emptyDB ⟨"T", "c", [⟨"a", "1"⟩]⟩ 4).1 =
      [⟨1, "T", "c", 4, 4, [⟨"a", "1"⟩]⟩] := by decide

example :
    (updateArticle emptyDB ⟨5, none, none, none⟩ 9).2 =
      Except.error "Article with id 5 not found" := rfl

theorem mkPropRows_map_pairOf (startId aid now : Nat) (ps : List PropPair) :
    (mkPropRows startId aid now ps).map pairOf = ps := by
  induction ps generalizing startId with
  | nil => rfl
  | cons p rest ih => simp [mkPropRows, pairOf, ih]

theorem mkPropRows_aid {startId aid now : Nat} {ps : List PropPair} :
    ∀ r ∈ mkPropRows startId aid now ps, r.article_id = aid := by
  induction ps generalizing startId with
  | nil => simp [mkPropRows]
  | cons p rest ih =>
    intro r hr
    simp only [mkPropRows, List.mem_cons] at hr
    rcases hr with rfl | h
    · rfl
    · exact ih r h

theorem mkPropRows_id_ge {startId aid now : Nat} {ps : List PropPair} :
    ∀ r ∈ mkPropRows startId aid now ps, startId ≤ r.id := by
  induction ps generalizing startId with
  | nil => simp [mkPropRows]
  | cons p rest ih =>
    intro r hr
    simp only [mkPropRows, List.mem_cons] at hr
    rcases hr with rfl | h
    · exact Nat.le_refl _
    · exact Nat.le_of_succ_le (ih r h)

theorem mkPropRows_name_mem {startId aid now : Nat} {ps : List PropPair} :
    ∀ r ∈ mkPropRows startId aid now ps,
      ∃ p ∈ ps, r.property_name = p.property_name := by
  induction ps generalizing startId with
  | nil => simp [mkPropRows]
  | cons p rest ih =>
    intro r hr
    simp only [mkPropRows, List.mem_cons] at hr
    rcases hr with rfl | h
    · exact ⟨p, List.mem_cons_self .., rfl⟩
    · obtain ⟨q, hq, hname⟩ := ih r h
      exact ⟨q, List.mem_cons_of_mem _ hq, hname⟩

theorem updRow_id (input : UpdateArticleInput) (now : Nat) (a : ArticleRow) :
    (updRow input now a).id = a.id := by
  unfold updRow
  split <;> rfl

theorem updRow_map_ids (input : UpdateArticleInput) (now : Nat)
    (l : List ArticleRow) :
    (l.map (updRow input now)).map (fun a => a.id) = l.map (fun a => a.id) := by
  simp [List.map_map, Function.comp_def, updRow_id]

theorem createArticle_wf {db : DB} {t : Nat} {input : CreateArticleInput}
    {now : Nat} (h : WF db t) (hle : t ≤ now) (hv : ValidCreate input) :
    WF (createArticle db input now).1 now := by
  unfold createArticle
  refine ⟨?_, ?_, ?_, ?_, ?_, ?_, ?_, ?_⟩
  · simp only [List.map_append, List.map_cons, List.map_nil]
    rw [List.pairwise_append]
    refine ⟨h.ids_sorted, List.pairwise_singleton _ _, ?_⟩
    intro x hx y hy
    simp only [List.mem_map] at hx
    obtain ⟨a, ha, rfl⟩ := hx
    simp only [List.mem_singleton] at hy
    subst hy
    exact h.ids_lt_next a ha
  · intro a ha
    simp only [List.mem_append, List.mem_singleton] at ha
    rcases ha with ha | rfl
    · exact Nat.lt_succ_of_lt (h.ids_lt_next a ha)
    · exact Nat.lt_succ_self _
  · exact Nat.le_add_right_of_le h.prop_next_pos
  · intro p hp
    simp only [List.mem_append] at hp
    rcases hp with hp | hp
    · exact h.prop_id_ne p hp
    · have := mkPropRows_id_ge p hp
      have := h.prop_next_pos
      omega
  · intro p hp
    simp only [List.mem_append] at hp
    rcases hp with hp | hp
    · obtain ⟨a, ha, haid⟩ := h.prop_owner p hp
      exact ⟨a, List.mem_append_left _ ha, haid⟩
    · refine ⟨_, List.mem_append_right _ (List.mem_singleton_self _), ?_⟩
      exact mkPropRows_aid p hp
  · intro p hp
    simp only [List.mem_append] at hp
    rcases hp with hp | hp
    · exact h.prop_name_ne p hp
    · obtain ⟨q, hq, hname⟩ := mkPropRows_name_mem p hp
      rw [hname]
      exact hv.2 q hq
  · intro a ha
    simp only [List.mem_append, List.mem_singleton] at ha
    rcases ha with ha | rfl
    · exact h.created_le_updated a ha
    · exact Nat.le_refl _
  · intro a ha
    simp only [List.mem_append, List.mem_singleton] at ha
    rcases ha with ha | rfl
    · exact Nat.le_trans (h.updated_le a ha) hle
    · exact Nat.le_refl _

theorem updateArticle_wf {db : DB} {t : Nat} {input : UpdateArticleInput}
    {now : Nat} (h : WF db t) (hle : t ≤ now) (hv : ValidUpdate input) :
    WF (updateArticle db input now).1 now := by
  have hsorted :
      ((db.articles.map (updRow input now)).map (fun a => a.id)).Pairwise (· < ·) := by
    rw [updRow_map_ids]
    exact h.ids_sorted
  have hlt : ∀ b ∈ db.articles.map (updRow input now),
      b.id < db.nextArticleId := by
    intro b hb
    obtain ⟨a, ha, rfl⟩ := List.mem_map.mp hb
    rw [updRow_id]
    exact h.ids_lt_next a ha
  have howner : ∀ p ∈ db.props,
      ∃ b ∈ db.articles.map (updRow input now), p.article_id = b.id := by
    intro p hp
    obtain ⟨a, ha, haid⟩ := h.prop_owner p hp
    exact ⟨updRow input now a, List.mem_map_of_mem _ ha,
      by rw [updRow_id]; exact haid⟩
  have hcu : ∀ b ∈ db.articles.map (updRow input now),
      b.created_at ≤ b.updated_at := by
    intro b hb
    obtain ⟨a, ha, rfl⟩ := List.mem_map.mp hb
    unfold updRow
    split
    · exact Nat.le_trans (Nat.le_trans (h.created_le_updated a ha)
        (h.updated_le a ha)) hle
    · exact h.created_le_updated a ha
  have hup : ∀ b ∈ db.articles.map (updRow input now), b.updated_at ≤ now := by
    intro b hb
    obtain ⟨a, ha, rfl⟩ := List.mem_map.mp hb
    unfold updRow
    split
    · exact Nat.le_refl _
    · exact Nat.le_trans (h.updated_le a ha) hle
  cases hfe : (db.articles.map (updRow input now)).filter
      (fun a => a.id == input.id) with
  | nil =>
    simp only [updateArticle, hfe]
    exact ⟨hsorted, hlt, h.prop_next_pos, h.prop_id_ne, howner,
      h.prop_name_ne, hcu, hup⟩
  | cons article tail =>
    have hart : article ∈ db.articles.map (updRow input now) ∧
        (article.id == input.id) = true := by
      have hmem : article ∈ (db.articles.map (updRow input now)).filter
          (fun a => a.id == input.id) := by
        rw [hfe]
        exact List.mem_cons_self ..
      exact List.mem_filter.mp hmem
    cases hprops : input.properties with
    | none =>
      simp only [updateArticle, hfe, hprops]
      exact ⟨hsorted, hlt, h.prop_next_pos, h.prop_id_ne, howner,
        h.prop_name_ne, hcu, hup⟩
    | some ps =>
      simp only [updateArticle, hfe, hprops]
      refine ⟨hsorted, hlt, Nat.le_add_right_of_le h.prop_next_pos,
        ?_, ?_, ?_, hcu, hup⟩
      · intro p hp
        rcases List.mem_append.mp hp with hp | hp
        · exact h.prop_id_ne p (List.mem_of_mem_filter hp)
        · have h1 := mkPropRows_id_ge p hp
          have h2 := h.prop_next_pos
          omega
      · intro p hp
        rcases List.mem_append.mp hp with hp | hp
        · exact howner p (List.mem_of_mem_filter hp)
        · refine ⟨article, hart.1, ?_⟩
          rw [mkPropRows_aid p hp]
          exact (beq_iff_eq.mp hart.2).symm
      · intro p hp
        rcases List.mem_append.mp hp with hp | hp
        · exact h.prop_name_ne p (List.mem_of_mem_filter hp)
        · obtain ⟨q, hq, hname⟩ := mkPropRows_name_mem p hp
          rw [hname]
          exact hv.2 ps hprops q hq

theorem deleteArticle_wf {db : DB} {t id : Nat} (h : WF db t) :
    WF (deleteArticle db id).1 t := by
  simp only [deleteArticle]
  refine ⟨?_, ?_, h.prop_next_pos, ?_, ?_, ?_, ?_, ?_⟩
  · have hsub : List.Sublist
        ((db.articles.filter (fun a => !(a.id == id))).map (fun a => a.id))
        (db.articles.map (fun a => a.id)) :=
      (List.filter_sublist _).map _
    exact h.ids_sorted.sublist hsub
  · intro a ha
    exact h.ids_lt_next a (List.mem_of_mem_filter ha)
  · intro p hp
    exact h.prop_id_ne p (List.mem_of_mem_filter hp)
  · intro p hp
    have hm := List.mem_filter.mp hp
    obtain ⟨a, ha, haid⟩ := h.prop_owner p hm.1
    refine ⟨a, ?_, haid⟩
    rw [List.mem_filter]
    refine ⟨ha, ?_⟩
    rcases Bool.eq_false_or_eq_true (a.id == id) with htrue | hfalse
    · exfalso
      have hmem : a ∈ db.articles.filter (fun a2 => a2.id == id) :=
        List.mem_filter.mpr ⟨ha, htrue⟩
      have hany : (db.articles.filter (fun a2 => a2.id == id)).any
          (fun a2 => a2.id == p.article_id) = true :=
        List.any_eq_true.mpr ⟨a, hmem, by simp [haid]⟩
      simp only [Bool.not_eq_true'] at hm
      rw [hm.2] at hany
      exact Bool.false_ne_true hany
    · simp [hfalse]
  · intro p hp
    exact h.prop_name_ne p (List.mem_of_mem_filter hp)
  · intro a ha
    exact h.created_le_updated a (List.mem_of_mem_filter ha)
  · intro a ha
    exact h.updated_le a (List.mem_of_mem_filter ha)

theorem wf_empty : WF emptyDB 0 := by
  refine ⟨?_, ?_, ?_, ?_, ?_, ?_, ?_, ?_⟩ <;> simp [emptyDB]

theorem reachable_wf {db : DB} {t : Nat} (h : Reachable db t) : WF db t := by
  induction h with
  | init => exact wf_empty
  | create hr hle hv ih => exact createArticle_wf ih hle hv
  | update hr hle hv ih => exact updateArticle_wf ih hle hv
  | del hr ih => exact deleteArticle_wf ih

theorem data_append (s t : String) : (s ++ t).data = s.data ++ t.data := by
  cases s
  cases t
  rfl

theorem listPrefixOf_iff (t s : List Char) : listPrefixOf t s = true ↔ t <+: s := by
  induction t generalizing s with
  | nil => simp [listPrefixOf]
  | cons a as ih =>
    cases s with
    | nil => simp [listPrefixOf]
    | cons b bs =>
      simp [listPrefixOf, List.cons_prefix_cons, ih, Bool.and_eq_true, beq_iff_eq]

theorem listInfixOf_iff (t s : List Char) : listInfixOf t s = true ↔ t <:+: s := by
  induction s with
  | nil => simp [listInfixOf, List.isEmpty_iff]
  | cons c rest ih =>
    rw [listInfixOf]
    simp [Bool.or_eq_true, listPrefixOf_iff, ih, List.infix_cons_iff]

theorem strSub_refl (s : String) : s.data <:+: s.data := List.infix_refl _

theorem strSub_left {t m : String} (suf : String) (h : t.data <:+: m.data) :
    t.data <:+: (m ++ suf).data := by
  rw [data_append]
  obtain ⟨u, v, huv⟩ := h
  exact ⟨u, v ++ suf.data, by rw [← huv]; simp⟩

theorem strSub_right {t m : String} (pre : String) (h : t.data <:+: m.data) :
    t.data <:+: (pre ++ m).data := by
  rw [data_append]
  obtain ⟨u, v, huv⟩ := h
  exact ⟨pre.data ++ u, v, by rw [← huv]; simp⟩

theorem joinNl_mem_sub {s : String} {l : List String} (hmem : s ∈ l) :
    s.data <:+: (joinNl l).data := by
  induction l with
  | nil => cases hmem
  | cons x rest ih =>
    cases rest with
    | nil =>
      rcases List.mem_cons.mp hmem with rfl | hmem
      · exact List.infix_refl _
      · cases hmem
    | cons y ys =>
      have hj : joinNl (x :: y :: ys) = x ++ "\n" ++ joinNl (y :: ys) := rfl
      rw [hj]
      rcases List.mem_cons.mp hmem with rfl | hmem
      · exact strSub_left _ (strSub_left _ (strSub_refl s))
      · exact strSub_right _ (ih hmem)

theorem sub_dropWhile {c : Char} {t s : List Char}
    (hc : isWs c = false) (h : (c :: t) <:+: s) :
    (c :: t) <:+: s.dropWhile isWs := by
  induction s with
  | nil =>
    rw [ List.infix_nil] at h
    exact absurd h (List.cons_ne_nil _ _)
  | cons b s2 ih =>
    rw [List.dropWhile_cons]
    split
    · rename_i hb
      rcases List.infix_cons_iff.mp h with hpre | hinf
      · obtain ⟨r, hr⟩ := hpre
        rw [List.cons_append] at hr
        injection hr with h1 _
        rw [h1] at hc
        rw [hc] at hb
        cases hb
      · exact ih hinf
    · exact h

theorem sub_trim_list {t s : List Char} (h : t <:+: s)
    (h1 : ∃ c l, t = c :: l ∧ isWs c = false)
    (h2 : ∃ c l, t = l ++ [c] ∧ isWs c = false) :
    t <:+: ((s.dropWhile isWs).reverse.dropWhile isWs).reverse := by
  obtain ⟨c, l1, hshape1, hc⟩ := h1
  obtain ⟨d, l2, hshape2, hd⟩ := h2
  subst hshape1
  have step1 : (c :: l1) <:+: s.dropWhile isWs := sub_dropWhile hc h
  have hrev : (c :: l1).reverse <:+: (s.dropWhile isWs).reverse :=
    List.reverse_infix.mpr step1
  have hshape3 : (c :: l1).reverse = d :: l2.reverse := by
    rw [hshape2]
    simp
  rw [hshape3] at hrev
  have step2 : (d :: l2.reverse) <:+:
      ((s.dropWhile isWs).reverse).dropWhile isWs := sub_dropWhile hd hrev
  have step3 := List.reverse_infix.mpr step2
  have hfix : (d :: l2.reverse).reverse = c :: l1 := by
    rw [List.reverse_cons, List.reverse_reverse, ← hshape2]
  rw [hfix] at step3
  exact step3

theorem containsStr_trim_wrap {needle s : String}
    (h : needle.data <:+: s.data)
    (h1 : ∃ c l, needle.data = c :: l ∧ isWs c = false)
    (h2 : ∃ c l, needle.data = l ++ [c] ∧ isWs c = false) :
    containsStr (trimStr ("\n" ++ s ++ "\n  ")) needle = true := by
  have hmain : needle.data <:+: ("\n" ++ s ++ "\n  ").data :=
    strSub_left _ (strSub_right _ h)
  have hres := sub_trim_list hmain h1 h2
  show listInfixOf needle.data (trimStr ("\n" ++ s ++ "\n  ")).data = true
  rw [listInfixOf_iff]
  exact hres

theorem generateHTML_contains {fmtDate : Nat → String}
    {awps : List ArticleWithProperties} {needle : String}
    (h : needle.data <:+:
      (htmlHead ++ joinNl (awps.map tocLiHtml) ++ htmlMid ++
        joinNl (awps.map (articleHtml fmtDate)) ++ htmlTail).data)
    (h1 : ∃ c l, needle.data = c :: l ∧ isWs c = false)
    (h2 : ∃ c l, needle.data = l ++ [c] ∧ isWs c = false) :
    containsStr (generateHTML fmtDate awps) needle = true :=
  containsStr_trim_wrap h h1 h2

theorem headOf_append {s : String} {c : Char} {l : List Char} (r : String)
    (h : s.data = c :: l) : (s ++ r).data = c :: (l ++ r.data) := by
  rw [data_append, h]
  rfl

theorem lastOf_append {r : String} {c : Char} {l : List Char} (s : String)
    (h : r.data = l ++ [c]) : (s ++ r).data = (s.data ++ l) ++ [c] := by
  rw [data_append, h, List.append_assoc]

theorem articleHtml_sub {fmtDate : Nat → String}
    {awps : List ArticleWithProperties} {a : ArticleWithProperties}
    (ha : a ∈ awps) :
    (articleHtml fmtDate a).data <:+:
      (htmlHead ++ joinNl (awps.map tocLiHtml) ++ htmlMid ++
        joinNl (awps.map (articleHtml fmtDate)) ++ htmlTail).data :=
  strSub_left _ (strSub_right _ (joinNl_mem_sub (List.mem_map_of_mem _ ha)))

theorem tocLiHtml_sub {fmtDate : Nat → String}
    {awps : List ArticleWithProperties} {a : ArticleWithProperties}
    (ha : a ∈ awps) :
    (tocLiHtml a).data <:+:
      (htmlHead ++ joinNl (awps.map tocLiHtml) ++ htmlMid ++
        joinNl (awps.map (articleHtml fmtDate)) ++ htmlTail).data :=
  strSub_left _ (strSub_left _ (strSub_left _
    (strSub_right _ (joinNl_mem_sub (List.mem_map_of_mem _ ha)))))

theorem h2Html_sub (fmtDate : Nat → String) (a : ArticleWithProperties) :
    (h2Html a).data <:+: (articleHtml fmtDate a).data :=
  strSub_left _ (strSub_left _ (strSub_left _ (strSub_left _ (strSub_left _
    (strSub_left _ (strSub_left _ (strSub_left _ (strSub_left _
      (strSub_right _ (strSub_refl _))))))))))

theorem contentHtml_sub (fmtDate : Nat → String) (a : ArticleWithProperties) :
    (contentHtml a).data <:+: (articleHtml fmtDate a).data :=
  strSub_left _ (strSub_right _ (strSub_refl _))

theorem propertiesBlock_sub (fmtDate : Nat → String)
    (a : ArticleWithProperties) :
    (propertiesBlock a).data <:+: (articleHtml fmtDate a).data :=
  strSub_left _ (strSub_left _ (strSub_left _ (strSub_right _ (strSub_refl _))))

theorem propLiHtml_sub {a : ArticleWithProperties} {pr : PropPair}
    (hmem : pr ∈ a.properties) :
    (propLiHtml pr).data <:+: (propertiesBlock a).data := by
  have hlen : 0 < a.properties.length := List.length_pos_of_mem hmem
  unfold propertiesBlock
  rw [if_pos hlen]
  exact strSub_left _ (strSub_right _
    (joinNl_mem_sub (List.mem_map_of_mem _ hmem)))

theorem h2Html_shape1 (a : ArticleWithProperties) :
    ∃ c l, (h2Html a).data = c :: l ∧ isWs c = false := by
  have hbase : ("<h2>" : String).data = '<' :: ("h2>" : String).data := by decide
  have h1 := headOf_append (escapeHtml a.title) hbase
  have h2 := headOf_append "</h2>" h1
  exact ⟨'<', _, h2, by decide⟩

theorem h2Html_shape2 (a : ArticleWithProperties) :
    ∃ c l, (h2Html a).data = l ++ [c] ∧ isWs c = false := by
  have hbase : ("</h2>" : String).data = ("</h2" : String).data ++ ['>'] := by
    decide
  have h1 := lastOf_append ("<h2>" ++ escapeHtml a.title) hbase
  exact ⟨'>', _, h1, by decide⟩

theorem contentHtml_shape1 (a : ArticleWithProperties) :
    ∃ c l, (contentHtml a).data = c :: l ∧ isWs c = false := by
  have hbase : ("<div class=\"content\">\n          " : String).data =
      '<' :: ("div class=\"content\">\n          " : String).data := by decide
  have h1 := headOf_append a.content hbase
  have h2 := headOf_append "\n        </div>" h1
  exact ⟨'<', _, h2, by decide⟩

theorem contentHtml_shape2 (a : ArticleWithProperties) :
    ∃ c l, (contentHtml a).data = l ++ [c] ∧ isWs c = false := by
  have hbase : ("\n        </div>" : String).data =
      ("\n        </div" : String).data ++ ['>'] := by decide
  have h1 := lastOf_append
    ("<div class=\"content\">\n          " ++ a.content) hbase
  exact ⟨'>', _, h1, by decide⟩

theorem propLiHtml_shape1 (pr : PropPair) :
    ∃ c l, (propLiHtml pr).data = c :: l ∧ isWs c = false := by
  have hbase : ("<li><strong>" : String).data =
      '<' :: ("li><strong>" : String).data := by decide
  have h1 := headOf_append (escapeHtml pr.property_name) hbase
  have h2 := headOf_append ":</strong> " h1
  have h3 := headOf_append
    (if escapeHtml pr.property_value == "" then "/"
     else escapeHtml pr.property_value) h2
  have h4 := headOf_append "</li>" h3
  exact ⟨'<', _, h4, by decide⟩

theorem propLiHtml_shape2 (pr : PropPair) :
    ∃ c l, (propLiHtml pr).data = l ++ [c] ∧ isWs c = false := by
  have hbase : ("</li>" : String).data = ("</li" : String).data ++ ['>'] := by
    decide
  have h1 := lastOf_append
    ("<li><strong>" ++ escapeHtml pr.property_name ++ ":</strong> " ++
      (if escapeHtml pr.property_value == "" then "/"
       else escapeHtml pr.property_value)) hbase
  exact ⟨'>', _, h1, by decide⟩

set_option maxRecDepth 100000 in
set_option maxHeartbeats 2000000 in
/-- C1: the claim as stated is false on the code: with a single article
carrying the property ("Author", ""), the rendered export document does
not contain the escaped name followed by the escaped empty value, and
does contain the "/" placeholder substituted for it
(the renderer computes the value slot as escapeHtml of the value, falling
back to "/" when that is the empty, falsy, string). -/
theorem C1_counterexample :
    containsStr
      (generateHTML (fun _ => "1/1/2024")
        [⟨1, "A", "c", 0, 0, [⟨"Author", ""⟩]⟩])
      ("<li><strong>" ++ escapeHtml "Author" ++ ":</strong> " ++
        escapeHtml "" ++ "</li>") = false ∧
    containsStr
      (generateHTML (fun _ => "1/1/2024")
        [⟨1, "A", "c", 0, 0, [⟨"Author", ""⟩]⟩])
      "<li><strong>Author:</strong> /</li>" = true := by
  constructor <;> decide

/-- C1 (amended): for every article in the rendered set and every property
of it, the document contains the escaped name followed by the escaped
value, except that an empty (falsy) escaped value is replaced by the "/"
placeholder. -/
theorem C1_amended_theorem {fmtDate : Nat → String}
    {awps : List ArticleWithProperties} {a : ArticleWithProperties}
    {pr : PropPair} (ha : a ∈ awps) (hpr : pr ∈ a.properties) :
    containsStr (generateHTML fmtDate awps)
      ("<li><strong>" ++ escapeHtml pr.property_name ++ ":</strong> " ++
        (if escapeHtml pr.property_value == "" then "/"
         else escapeHtml pr.property_value) ++ "</li>") = true := by
  apply generateHTML_contains
  · exact ((propLiHtml_sub hpr).trans (propertiesBlock_sub fmtDate a)).trans
      (articleHtml_sub ha)
  · exact propLiHtml_shape1 pr
  · exact propLiHtml_shape2 pr

/-- C1 (amended) at a concrete input: an article with properties
("Author", "John") and ("Tag", ""). -/
theorem C1_amended_witness :
    containsStr
      (generateHTML (fun _ => "1/1/2024")
        [⟨1, "A", "c", 0, 0, [⟨"Author", "John"⟩, ⟨"Tag", ""⟩]⟩])
      ("<li><strong>" ++ escapeHtml "Tag" ++ ":</strong> " ++
        (if escapeHtml "" == "" then "/" else escapeHtml "") ++ "</li>") =
      true :=
  @C1_amended_theorem (fun _ => "1/1/2024")
    [⟨1, "A", "c", 0, 0, [⟨"Author", "John"⟩, ⟨"Tag", ""⟩]⟩]
    ⟨1, "A", "c", 0, 0, [⟨"Author", "John"⟩, ⟨"Tag", ""⟩]⟩
    ⟨"Tag", ""⟩
    (List.mem_singleton_self _)
    (List.mem_cons_of_mem _ (List.mem_singleton_self _))

set_option maxRecDepth 100000 in
set_option maxHeartbeats 2000000 in
/-- C3: the claim as stated is false on the code for the apostrophe: the
code escapes it to the numeric character reference "&#39;", not to the
named reference "&apos;" the spec words prescribe, so a title containing
an apostrophe is not rendered with its named character-reference
equivalent. -/
theorem C3_counterexample :
    escapeHtml "don\x27t" = "don&#39;t" ∧
    specEscapeHtml "don\x27t" = "don&apos;t" ∧
    containsStr
      (generateHTML (fun _ => "1/1/2024") [⟨1, "don\x27t", "c", 0, 0, []⟩])
      ("<h2>" ++ specEscapeHtml "don\x27t" ++ "</h2>") = false ∧
    containsStr
      (generateHTML (fun _ => "1/1/2024") [⟨1, "don\x27t", "c", 0, 0, []⟩])
      ("<h2>" ++ escapeHtml "don\x27t" ++ "</h2>") = true := by
  refine ⟨?_, ?_, ?_, ?_⟩ <;> decide

/-- C3 (amended): in the export document, every occurrence of the five
special characters inside any article title, property name or property
value is replaced before insertion — `&` `<` `>` `"` by their named
character references and `'` by the numeric reference `&#39;` — while the
raw content is inserted verbatim, unescaped: the document contains the
`<h2>` element with the character-wise escaped title, the content `div`
with the untouched content string, and, for every property, the `<li>`
element with the character-wise escaped name and the character-wise
escaped value (the `/` placeholder standing in only when the escaped
value is empty and there is nothing to escape); `escapeHtml` is exactly
that character-wise replacement (e.g. a title `<script>alert(1)</script>`
renders as the escaped sequence, never as live markup). -/
theorem C3_amended_theorem {fmtDate : Nat → String}
    {awps : List ArticleWithProperties} {a : ArticleWithProperties}
    (ha : a ∈ awps) :
    containsStr (generateHTML fmtDate awps)
      ("<h2>" ++ escapeHtml a.title ++ "</h2>") = true ∧
    containsStr (generateHTML fmtDate awps)
      ("<div class=\"content\">\n          " ++ a.content ++
        "\n        </div>") = true ∧
    (∀ pr ∈ a.properties,
      containsStr (generateHTML fmtDate awps)
        ("<li><strong>" ++ escapeHtml pr.property_name ++ ":</strong> " ++
          (if escapeHtml pr.property_value == "" then "/"
           else escapeHtml pr.property_value) ++ "</li>") = true) ∧
    (∀ s : String, escapeHtml s = String.join (s.data.map escapeChar)) ∧
    escapeChar '&' = "&amp;" ∧
    escapeChar '<' = "&lt;" ∧
    escapeChar '>' = "&gt;" ∧
    escapeChar '"' = "&quot;" ∧
    escapeChar (Char.ofNat 39) = "&#39;" ∧
    (∀ c : Char, c ≠ '&' → c ≠ '<' → c ≠ '>' → c ≠ '"' →
      c ≠ Char.ofNat 39 → escapeChar c = String.singleton c) ∧
    escapeHtml "<script>alert(1)</script>" =
      "&lt;script&gt;alert(1)&lt;/script&gt;" := by
  refine ⟨?_, ?_, ?_, fun s => rfl, rfl, rfl, rfl, rfl, rfl, ?_, by decide⟩
  · apply generateHTML_contains
    · exact (h2Html_sub fmtDate a).trans (articleHtml_sub ha)
    · exact h2Html_shape1 a
    · exact h2Html_shape2 a
  · apply generateHTML_contains
    · exact (contentHtml_sub fmtDate a).trans (articleHtml_sub ha)
    · exact contentHtml_shape1 a
    · exact contentHtml_shape2 a
  · intro pr hpr
    apply generateHTML_contains
    · exact ((propLiHtml_sub hpr).trans (propertiesBlock_sub fmtDate a)).trans
        (articleHtml_sub ha)
    · exact propLiHtml_shape1 pr
    · exact propLiHtml_shape2 pr
  · intro c h1 h2 h3 h4 h5
    simp [escapeChar, beq_iff_eq, h1, h2, h3, h4, h5]

/-- C3 (amended) at a concrete input: an article whose title is the
script-injection example, whose content is raw markup, and which carries
one property with special characters in both the name and the value. -/
theorem C3_amended_witness :
    containsStr
      (generateHTML (fun _ => "1/1/2024")
        [⟨1, "<script>alert(1)</script>", "<b>raw</b>", 0, 0,
          [⟨"A&B", "x<y"⟩]⟩])
      ("<h2>" ++ escapeHtml "<script>alert(1)</script>" ++ "</h2>") = true ∧
    containsStr
      (generateHTML (fun _ => "1/1/2024")
        [⟨1, "<script>alert(1)</script>", "<b>raw</b>", 0, 0,
          [⟨"A&B", "x<y"⟩]⟩])
      ("<div class=\"content\">\n          " ++ "<b>raw</b>" ++
        "\n        </div>") = true ∧
    containsStr
      (generateHTML (fun _ => "1/1/2024")
        [⟨1, "<script>alert(1)</script>", "<b>raw</b>", 0, 0,
          [⟨"A&B", "x<y"⟩]⟩])
      ("<li><strong>" ++ escapeHtml "A&B" ++ ":</strong> " ++
        (if escapeHtml "x<y" == "" then "/" else escapeHtml "x<y") ++
        "</li>") = true :=
  ⟨(@C3_amended_theorem (fun _ => "1/1/2024")
      [⟨1, "<script>alert(1)</script>", "<b>raw</b>", 0, 0,
        [⟨"A&B", "x<y"⟩]⟩]
      ⟨1, "<script>alert(1)</script>", "<b>raw</b>", 0, 0,
        [⟨"A&B", "x<y"⟩]⟩
      (List.mem_singleton_self _)).1,
   (@C3_amended_theorem (fun _ => "1/1/2024")
      [⟨1, "<script>alert(1)</script>", "<b>raw</b>", 0, 0,
        [⟨"A&B", "x<y"⟩]⟩]
      ⟨1, "<script>alert(1)</script>", "<b>raw</b>", 0, 0,
        [⟨"A&B", "x<y"⟩]⟩
      (List.mem_singleton_self _)).2.1,
   (@C3_amended_theorem (fun _ => "1/1/2024")
      [⟨1, "<script>alert(1)</script>", "<b>raw</b>", 0, 0,
        [⟨"A&B", "x<y"⟩]⟩]
      ⟨1, "<script>alert(1)</script>", "<b>raw</b>", 0, 0,
        [⟨"A&B", "x<y"⟩]⟩
      (List.mem_singleton_self _)).2.2.1
      ⟨"A&B", "x<y"⟩ (List.mem_singleton_self _)⟩

/-- C4: the claim as stated is false on the code: with one stored article
and an explicitly supplied empty article_ids list (no stored id appears in
that list, so the claim demands an empty resolved set and success=false),
the handler treats the empty list like an absent one, resolves all
articles and succeeds. -/
theorem C4_counterexample :
    (DB.mk [⟨1, "T", "c", 0, 0⟩] [] 2 1).articles.filter
      (fun a => ([] : List Nat).contains a.id) = [] ∧
    (exportArticles "/app" (fun _ => "1/1/2024")
      (DB.mk [⟨1, "T", "c", 0, 0⟩] [] 2 1)
      ⟨ExportFormat.html, some []⟩ "TS").1.success = true := by
  exact ⟨rfl, rfl⟩

/-- C4 (amended): exportArticles resolves its target set as follows: a
supplied non-empty article_ids list fetches exactly the stored articles
whose ids appear in the list (unmatched ids silently dropped, with no
partial-failure signal); an absent list, or a supplied empty list, uses
all stored articles; whenever the resolved set is empty the handler
returns success=false with no downloadUrl and writes no file, and a
non-empty resolved set yields success=true. -/
theorem C4_amended_theorem (db : DB) (cwd : String) (fmtDate : Nat → String)
    (iso : String) (fmt : ExportFormat) (ids : List Nat) :
    resolveArticles db ⟨fmt, none⟩ = db.articles ∧
    (ids ≠ [] → resolveArticles db ⟨fmt, some ids⟩ =
      db.articles.filter (fun a => ids.contains a.id)) ∧
    resolveArticles db ⟨fmt, some []⟩ = db.articles ∧
    (∀ input : ExportInput, resolveArticles db input = [] →
      exportArticles cwd fmtDate db input iso = (⟨false, none⟩, [])) ∧
    (∀ input : ExportInput, resolveArticles db input ≠ [] →
      (exportArticles cwd fmtDate db input iso).1.success = true) := by
  refine ⟨rfl, ?_, rfl, ?_, ?_⟩
  · intro h
    show (if ids.length > 0 then
        db.articles.filter (fun a => ids.contains a.id)
      else db.articles) =
      db.articles.filter (fun a => ids.contains a.id)
    rw [if_pos (List.length_pos.mpr h)]
  · intro input h
    simp only [exportArticles, h]
    rfl
  · intro input h
    have hlen : ((resolveArticles db input).length == 0) = false := by
      cases hres : resolveArticles db input with
      | nil => exact absurd hres h
      | cons x xs => rfl
    simp only [exportArticles, hlen]
    rfl

/-- C4 (amended) at concrete inputs: a store with one article (id 1); the
list [1, 99] fetches exactly article 1 with 99 silently dropped; the list
[99] resolves to the empty set, so the export soft-fails with no writes;
exporting with no list succeeds. -/
theorem C4_amended_witness :
    resolveArticles (DB.mk [⟨1, "T", "c", 0, 0⟩] [] 2 1)
      ⟨ExportFormat.html, some [1, 99]⟩ =
      (DB.mk [⟨1, "T", "c", 0, 0⟩] [] 2 1).articles.filter
        (fun a => [1, 99].contains a.id) ∧
    exportArticles "/app" (fun _ => "1/1/2024")
      (DB.mk [⟨1, "T", "c", 0, 0⟩] [] 2 1)
      ⟨ExportFormat.html, some [99]⟩ "TS" = (⟨false, none⟩, []) ∧
    (exportArticles "/app" (fun _ => "1/1/2024")
      (DB.mk [⟨1, "T", "c", 0, 0⟩] [] 2 1)
      ⟨ExportFormat.html, none⟩ "TS").1.success = true :=
  ⟨(C4_amended_theorem (DB.mk [⟨1, "T", "c", 0, 0⟩] [] 2 1) "/app"
      (fun _ => "1/1/2024") "TS" ExportFormat.html [1, 99]).2.1
      (by decide),
   (C4_amended_theorem (DB.mk [⟨1, "T", "c", 0, 0⟩] [] 2 1) "/app"
      (fun _ => "1/1/2024") "TS" ExportFormat.html [1, 99]).2.2.2.1
      ⟨ExportFormat.html, some [99]⟩ (by decide),
   (C4_amended_theorem (DB.mk [⟨1, "T", "c", 0, 0⟩] [] 2 1) "/app"
      (fun _ => "1/1/2024") "TS" ExportFormat.html [1, 99]).2.2.2.2
      ⟨ExportFormat.html, none⟩ (by decide)⟩

theorem listIsPrefixOf_refl (l : List Char) : List.isPrefixOf l l = true := by
  induction l with
  | nil => rfl
  | cons c rest ih => simp [List.isPrefixOf, ih]

theorem replaceFirstAux_suffix (pre pat2 rep : List Char)
    (hpre : ∀ x ∈ pre, x ≠ '.') :
    replaceFirstAux (pre ++ '.' :: pat2) ('.' :: pat2) rep = pre ++ rep := by
  induction pre with
  | nil =>
    rw [List.nil_append, replaceFirstAux]
    rw [if_pos (listIsPrefixOf_refl _)]
    rw [List.drop_length]
    simp
  | cons x pre2 ih =>
    rw [List.cons_append, replaceFirstAux]
    rw [if_neg ?hneg]
    · rw [ih (fun y hy => hpre y (List.mem_cons_of_mem _ hy)),
        List.cons_append]
    case hneg =>
      intro hcon
      rw [List.isPrefixOf] at hcon
      have hx := hpre x (List.mem_cons_self ..)
      simp only [Bool.and_eq_true, beq_iff_eq] at hcon
      exact hx hcon.1.symm

theorem sanitizeTs_no_dot (iso : String) :
    ∀ x ∈ (sanitizeTs iso).data, x ≠ '.' := by
  intro x hx
  obtain ⟨y, hy, rfl⟩ := List.mem_map.mp hx
  by_cases hc : (y == ':' || y == '.') = true
  · rw [if_pos hc]
    decide
  · rw [if_neg hc]
    simp only [Bool.or_eq_true, beq_iff_eq] at hc
    push_neg at hc
    exact hc.2

theorem replaceFirst_boundary (pre : String)
    (hpre : ∀ x ∈ pre.data, x ≠ '.') :
    replaceFirst (pre ++ ".pdf") ".pdf" ".html" = pre ++ ".html" := by
  apply String.ext
  show replaceFirstAux (pre ++ ".pdf").data (".pdf" : String).data
      (".html" : String).data = (pre ++ ".html").data
  rw [data_append, data_append]
  have h1 : (".pdf" : String).data = '.' :: ("pdf" : String).data := by decide
  rw [h1]
  exact replaceFirstAux_suffix pre.data _ _ hpre

/-- C10: a pdf-format export with a non-empty resolved set (over a working
directory containing no dot) writes the generated HTML document to the
path ending in ".html" obtained by replacing the ".pdf" extension, yet
returns success=true with a downloadUrl whose filename keeps the ".pdf"
extension; no ".pdf"-named file is ever written, and the filename the
downloadUrl names differs from the one actually produced. -/
theorem C10_theorem (db : DB) (cwd iso : String) (fmtDate : Nat → String)
    (idsOpt : Option (List Nat))
    (hres : resolveArticles db ⟨ExportFormat.pdf, idsOpt⟩ ≠ [])
    (hcwd : ∀ x ∈ cwd.data, x ≠ '.') :
    (exportArticles cwd fmtDate db ⟨ExportFormat.pdf, idsOpt⟩ iso =
      (⟨true, some ("/exports/" ++
          ("articles_" ++ sanitizeTs iso ++ "." ++ "pdf"))⟩,
       [(cwd ++ "/exports" ++ "/" ++ ("articles_" ++ sanitizeTs iso) ++
           ".html",
         generateHTML fmtDate
           (combineAwps db
             (resolveArticles db ⟨ExportFormat.pdf, idsOpt⟩)))])) ∧
    ("articles_" ++ sanitizeTs iso ++ "." ++ "pdf") ≠
      ("articles_" ++ sanitizeTs iso) ++ ".html" := by
  constructor
  · have hlen : ((resolveArticles db ⟨ExportFormat.pdf, idsOpt⟩).length == 0) =
        false := by
      cases hres2 : resolveArticles db ⟨ExportFormat.pdf, idsOpt⟩ with
      | nil => exact absurd hres2 hres
      | cons x xs => rfl
    have hAB : ∀ x ∈ (((cwd ++ "/exports") ++ "/") ++
        ("articles_" ++ sanitizeTs iso)).data, x ≠ '.' := by
      intro x hx
      rw [data_append] at hx
      rcases List.mem_append.mp hx with hx | hx
      · rw [data_append] at hx
        rcases List.mem_append.mp hx with hx | hx
        · rw [data_append] at hx
          rcases List.mem_append.mp hx with hx | hx
          · exact hcwd x hx
          · exact (by decide : ∀ y ∈ ("/exports" : String).data, y ≠ '.') x hx
        · exact (by decide : ∀ y ∈ ("/" : String).data, y ≠ '.') x hx
      · rw [data_append] at hx
        rcases List.mem_append.mp hx with hx | hx
        · exact (by decide : ∀ y ∈ ("articles_" : String).data, y ≠ '.') x hx
        · exact sanitizeTs_no_dot iso x hx
    have hdot : ("." : String) ++ "pdf" = ".pdf" := by decide
    have hsplit : ((cwd ++ "/exports") ++ "/") ++
        ((("articles_" ++ sanitizeTs iso) ++ ".") ++ "pdf") =
        ((((cwd ++ "/exports") ++ "/") ++
          ("articles_" ++ sanitizeTs iso)) ++ ".pdf") := by
      rw [String.append_assoc ("articles_" ++ sanitizeTs iso) "." "pdf", hdot,
        ← String.append_assoc]
    have hpath := replaceFirst_boundary _ hAB
    simp only [exportArticles, hlen, formatExt]
    rw [hsplit, hpath]
    exact if_neg (by decide)
  · intro hcon
    have hlen2 := congrArg String.length hcon
    simp only [String.length_append] at hlen2
    have e1 : ("." : String).length = 1 := rfl
    have e2 : ("pdf" : String).length = 3 := rfl
    have e3 : (".html" : String).length = 5 := rfl
    rw [e1, e2, e3] at hlen2
    omega

/-- C10 at a concrete input: one stored article, pdf format, a fixed ISO
timestamp. -/
theorem C10_witness :
    exportArticles "/app" (fun _ => "1/1/2024")
      (DB.mk [⟨1, "T", "c", 0, 0⟩] [] 2 1)
      ⟨ExportFormat.pdf, none⟩ "2024-01-01T00:00:00.000Z" =
      (⟨true, some ("/exports/" ++ ("articles_" ++
          sanitizeTs "2024-01-01T00:00:00.000Z" ++ "." ++ "pdf"))⟩,
       [("/app" ++ "/exports" ++ "/" ++ ("articles_" ++
           sanitizeTs "2024-01-01T00:00:00.000Z") ++ ".html",
         generateHTML (fun _ => "1/1/2024")
           (combineAwps (DB.mk [⟨1, "T", "c", 0, 0⟩] [] 2 1)
             (resolveArticles (DB.mk [⟨1, "T", "c", 0, 0⟩] [] 2 1)
               ⟨ExportFormat.pdf, none⟩)))]) :=
  (C10_theorem (DB.mk [⟨1, "T", "c", 0, 0⟩] [] 2 1) "/app"
    "2024-01-01T00:00:00.000Z" (fun _ => "1/1/2024") none
    (by decide) (by decide)).1

/-- C2: at every reachable store state, every article satisfies
`updated_at >= created_at`: creation sets both timestamps to the same
"now" and update only moves `updated_at` forward under the monotone
clock. -/
theorem C2_theorem {db : DB} {t : Nat} (h : Reachable db t) :
    ∀ a ∈ db.articles, a.created_at ≤ a.updated_at :=
  (reachable_wf h).created_le_updated

/-- C2 at a concrete reachable state: create at time 5, then update the
title at time 7; the stored article is (created 5, updated 7). -/
theorem C2_witness :
    (ArticleRow.mk 1 "U" "c" 5 7).created_at ≤
      (ArticleRow.mk 1 "U" "c" 5 7).updated_at := by
  have h1 : Reachable (createArticle emptyDB ⟨"T", "c", []⟩ 5).1 5 :=
    Reachable.create Reachable.init (by omega) ⟨by decide, by decide⟩
  have h2 : Reachable (updateArticle (createArticle emptyDB ⟨"T", "c", []⟩ 5).1
      ⟨1, some "U", none, none⟩ 7).1 7 :=
    Reachable.update h1 (by omega)
      ⟨fun s hs => by cases hs; decide, fun ps hps => by cases hps⟩
  exact C2_theorem h2 (ArticleRow.mk 1 "U" "c" 5 7) (by decide)

/-- C9: updateArticle on an id no stored article has returns the NotFound
error (which the handler rethrows to the caller) and leaves the store
completely unchanged: the UPDATE matched no row and the properties step is
never reached. -/
theorem C9_theorem (db : DB) (input : UpdateArticleInput) (now : Nat)
    (hno : ∀ a ∈ db.articles, a.id ≠ input.id) :
    updateArticle db input now =
      (db, Except.error ("Article with id " ++ toString input.id ++
        " not found")) := by
  have hmap : db.articles.map (updRow input now) = db.articles := by
    rw [List.map_congr_left (g := id) (fun a ha => ?_), List.map_id]
    unfold updRow
    rw [if_neg]
    · rfl
    · simp only [beq_iff_eq]
      exact hno a ha
  have hfil : db.articles.filter (fun a => a.id == input.id) = [] := by
    rw [List.filter_eq_nil_iff]
    intro a ha
    simp only [beq_iff_eq]
    exact hno a ha
  simp only [updateArticle, hmap, hfil]

/-- C9 at a concrete input: the empty store has no article 7. -/
theorem C9_witness :
    updateArticle emptyDB ⟨7, none, none, none⟩ 3 =
      (emptyDB, Except.error "Article with id 7 not found") :=
  C9_theorem emptyDB ⟨7, none, none, none⟩ 3 (by decide)

theorem getArticleById_eq_of_find (db : DB) {id : Nat} {a : ArticleRow}
    (hf : db.articles.find? (fun x => x.id == id) = some a) :
    getArticleById db id =
      some ⟨a.id, a.title, a.content, a.created_at, a.updated_at,
        (db.props.filter (fun p => p.article_id == id)).map pairOf⟩ := by
  unfold getArticleById
  rw [hf]

/-- C6: creating an article with a list of N (name, value) pairs
(duplicate names permitted) and reading the new article back by the
returned id yields exactly those N pairs, in the given order, unmerged. -/
theorem C6_theorem {db : DB} {t : Nat} (h : Reachable db t)
    (input : CreateArticleInput) (now : Nat) (_hv : ValidCreate input) :
    getArticleById (createArticle db input now).1
      (createArticle db input now).2.id =
      some ⟨db.nextArticleId, input.title, input.content, now, now,
        input.properties⟩ := by
  have hwf := reachable_wf h
  have hfind : ((createArticle db input now).1.articles).find?
      (fun x => x.id == db.nextArticleId) =
      some ⟨db.nextArticleId, input.title, input.content, now, now⟩ := by
    show (db.articles ++
      [(⟨db.nextArticleId, input.title, input.content, now, now⟩ :
        ArticleRow)]).find? (fun x => x.id == db.nextArticleId) =
      some ⟨db.nextArticleId, input.title, input.content, now, now⟩
    rw [List.find?_append]
    have hnone : db.articles.find? (fun x => x.id == db.nextArticleId) =
        none := by
      rw [List.find?_eq_none]
      intro a ha
      simp only [beq_iff_eq]
      exact Nat.ne_of_lt (hwf.ids_lt_next a ha)
    rw [hnone]
    simp [List.find?]
  have hprops : ((createArticle db input now).1.props).filter
      (fun p => p.article_id == db.nextArticleId) =
      mkPropRows db.nextPropId db.nextArticleId now input.properties := by
    show (db.props ++
      mkPropRows db.nextPropId db.nextArticleId now input.properties).filter
        (fun p => p.article_id == db.nextArticleId) =
      mkPropRows db.nextPropId db.nextArticleId now input.properties
    rw [List.filter_append]
    have hold : db.props.filter (fun p => p.article_id == db.nextArticleId) =
        [] := by
      rw [List.filter_eq_nil_iff]
      intro p hp
      obtain ⟨a, ha, haid⟩ := hwf.prop_owner p hp
      simp only [beq_iff_eq, haid]
      exact Nat.ne_of_lt (hwf.ids_lt_next a ha)
    have hnew : (mkPropRows db.nextPropId db.nextArticleId now
        input.properties).filter (fun p => p.article_id == db.nextArticleId) =
        mkPropRows db.nextPropId db.nextArticleId now input.properties := by
      rw [List.filter_eq_self]
      intro p hp
      simp only [beq_iff_eq]
      exact mkPropRows_aid p hp
    rw [hold, hnew, List.nil_append]
  show getArticleById (createArticle db input now).1 db.nextArticleId =
    some ⟨db.nextArticleId, input.title, input.content, now, now,
      input.properties⟩
  rw [getArticleById_eq_of_find _ hfind, hprops, mkPropRows_map_pairOf]

/-- C6 at a concrete input: two properties sharing the same name survive
the create/read round trip in order, unmerged. -/
theorem C6_witness :
    getArticleById
      (createArticle emptyDB ⟨"T", "c", [⟨"a", "1"⟩, ⟨"a", "2"⟩]⟩ 3).1
      (createArticle emptyDB ⟨"T", "c", [⟨"a", "1"⟩, ⟨"a", "2"⟩]⟩ 3).2.id =
      some ⟨1, "T", "c", 3, 3, [⟨"a", "1"⟩, ⟨"a", "2"⟩]⟩ :=
  C6_theorem Reachable.init ⟨"T", "c", [⟨"a", "1"⟩, ⟨"a", "2"⟩]⟩ 3
    ⟨by decide, by decide⟩

/-- C8: deleteArticle returns success=false (not an error) exactly when no
stored article has the id, leaving the store unchanged then; on success it
removes the article together with every property whose article_id equals
that id, leaves all other articles and their properties untouched, and no
orphan property persists (every remaining property still has its owner). -/
theorem C8_theorem {db : DB} {t : Nat} (h : Reachable db t) (id : Nat) :
    ((deleteArticle db id).2 = false ↔ ∀ a ∈ db.articles, a.id ≠ id) ∧
    ((deleteArticle db id).2 = false → (deleteArticle db id).1 = db) ∧
    (deleteArticle db id).1.articles =
      db.articles.filter (fun a => !(a.id == id)) ∧
    ((deleteArticle db id).2 = true →
      (deleteArticle db id).1.props =
        db.props.filter (fun p => !(p.article_id == id))) ∧
    (∀ p ∈ (deleteArticle db id).1.props,
      ∃ a ∈ (deleteArticle db id).1.articles, p.article_id = a.id) := by
  have hsucc : (deleteArticle db id).2 = false ↔
      db.articles.filter (fun a => a.id == id) = [] := by
    show (decide (0 < (db.articles.filter (fun a => a.id == id)).length) =
      false) ↔ _
    rw [decide_eq_false_iff_not, Nat.not_lt, Nat.le_zero,
      List.length_eq_zero]
  constructor
  · rw [hsucc, List.filter_eq_nil_iff]
    constructor
    · intro hall a ha
      have := hall a ha
      simpa [beq_iff_eq] using this
    · intro hall a ha
      simp only [beq_iff_eq]
      exact hall a ha
  refine ⟨?_, rfl, ?_, ?_⟩
  · intro hfalse
    have hfil := hsucc.mp hfalse
    have hall := List.filter_eq_nil_iff.mp hfil
    show DB.mk (db.articles.filter (fun a => !(a.id == id)))
      (db.props.filter (fun p => !((db.articles.filter
        (fun a => a.id == id)).any (fun a => a.id == p.article_id))))
      db.nextArticleId db.nextPropId = db
    rw [hfil]
    have harts : db.articles.filter (fun a => !(a.id == id)) = db.articles := by
      rw [List.filter_eq_self]
      intro a ha
      simp only [Bool.not_eq_true']
      rcases Bool.eq_false_or_eq_true (a.id == id) with htrue | hfalse2
      · exact absurd (beq_iff_eq.mp htrue) (fun heq => hall a ha htrue)
      · exact hfalse2
    have hprops2 : db.props.filter
        (fun p => !(([] : List ArticleRow).any
          (fun a => a.id == p.article_id))) = db.props := by
      rw [List.filter_eq_self]
      intro p hp
      rfl
    rw [harts, hprops2]
  · intro htrue
    have hne : db.articles.filter (fun a => a.id == id) ≠ [] := by
      intro hnil
      rw [hsucc.mpr hnil] at htrue
      cases htrue
    show db.props.filter (fun p => !((db.articles.filter
        (fun a => a.id == id)).any (fun a => a.id == p.article_id))) = _
    apply List.filter_congr
    intro p hp
    congr 1
    rcases Bool.eq_false_or_eq_true (p.article_id == id) with hpa | hpa
    · rw [hpa, List.any_eq_true]
      obtain ⟨d, hdmem⟩ := List.exists_mem_of_ne_nil _ hne
      have hdid := beq_iff_eq.mp (List.mem_filter.mp hdmem).2
      refine ⟨d, hdmem, ?_⟩
      rw [beq_iff_eq, hdid]
      exact (beq_iff_eq.mp hpa).symm
    · rw [hpa, List.any_eq_false]
      intro a ha hcon
      have haid := beq_iff_eq.mp (List.mem_filter.mp ha).2
      have hthis := beq_iff_eq.mp hcon
      rw [haid] at hthis
      exact absurd hthis.symm (beq_eq_false_iff_ne.mp hpa)
  · exact (deleteArticle_wf (reachable_wf h)).prop_owner

/-- C8 at a concrete reachable state: two articles each with one property;
deleting article 1 removes it and its property and keeps article 2 with
its property. -/
theorem C8_witness :
    (deleteArticle (createArticle (createArticle emptyDB
      ⟨"A", "", [⟨"x", "1"⟩]⟩ 1).1 ⟨"B", "", [⟨"y", "2"⟩]⟩ 2).1 1).1.articles =
      (createArticle (createArticle emptyDB ⟨"A", "", [⟨"x", "1"⟩]⟩ 1).1
        ⟨"B", "", [⟨"y", "2"⟩]⟩ 2).1.articles.filter
        (fun a => !(a.id == 1)) ∧
    (deleteArticle (createArticle (createArticle emptyDB
      ⟨"A", "", [⟨"x", "1"⟩]⟩ 1).1 ⟨"B", "", [⟨"y", "2"⟩]⟩ 2).1 1).1.props =
      (createArticle (createArticle emptyDB ⟨"A", "", [⟨"x", "1"⟩]⟩ 1).1
        ⟨"B", "", [⟨"y", "2"⟩]⟩ 2).1.props.filter
        (fun p => !(p.article_id == 1)) := by
  have h1 : Reachable (createArticle emptyDB ⟨"A", "", [⟨"x", "1"⟩]⟩ 1).1 1 :=
    Reachable.create Reachable.init (by omega) ⟨by decide, by decide⟩
  have h2 : Reachable (createArticle (createArticle emptyDB
      ⟨"A", "", [⟨"x", "1"⟩]⟩ 1).1 ⟨"B", "", [⟨"y", "2"⟩]⟩ 2).1 2 :=
    Reachable.create h1 (by omega) ⟨by decide, by decide⟩
  exact ⟨(C8_theorem h2 1).2.2.1, (C8_theorem h2 1).2.2.2.1 (by decide)⟩

theorem wf_id_inj {db : DB} {t : Nat} (hwf : WF db t) :
    ∀ x ∈ db.articles, ∀ y ∈ db.articles, x.id = y.id → x = y := by
  have hp : db.articles.Pairwise (fun x y => x.id ≠ y.id) := by
    have hs := hwf.ids_sorted
    rw [List.pairwise_map] at hs
    exact hs.imp (fun hlt => Nat.ne_of_lt hlt)
  have hsym : Symmetric (fun (x y : ArticleRow) => x.id ≠ y.id) := by
    intro x y hab heq
    exact hab heq.symm
  intro x hx y hy hxy
  by_contra hne
  exact (List.Pairwise.forall hsym hp hx hy hne) hxy

theorem updRow_eq_self {input : UpdateArticleInput} {now : Nat}
    {c : ArticleRow} (hne : c.id ≠ input.id) : updRow input now c = c := by
  have hfalse : (c.id == input.id) = false := beq_eq_false_iff_ne.mpr hne
  simp [updRow, hfalse]

theorem updRow_eq_set {input : UpdateArticleInput} {now : Nat}
    {a : ArticleRow} (heq : a.id = input.id) :
    updRow input now a =
      { a with
        updated_at := now
        title := input.title.getD a.title
        content := input.content.getD a.content } := by
  simp [updRow, heq]

theorem updated_rows {db : DB} {t : Nat} (hwf : WF db t)
    (input : UpdateArticleInput) (now : Nat) {a : ArticleRow}
    (ha : a ∈ db.articles) (hid : input.id = a.id) (hnow : t < now) :
    (∀ b ∈ db.articles.map (updRow input now), b.id = a.id →
      b.title = input.title.getD a.title ∧
      b.content = input.content.getD a.content ∧
      b.created_at = a.created_at ∧ a.updated_at < b.updated_at) ∧
    (∀ b ∈ db.articles.map (updRow input now), b.id ≠ input.id →
      b ∈ db.articles) := by
  constructor
  · intro b hb hbid
    obtain ⟨c, hc, rfl⟩ := List.mem_map.mp hb
    rw [updRow_id] at hbid
    have hca : c = a := wf_id_inj hwf c hc a ha hbid
    subst hca
    rw [updRow_eq_set hid.symm]
    exact ⟨rfl, rfl, rfl, Nat.lt_of_le_of_lt (hwf.updated_le c hc) hnow⟩
  · intro b hb hbne
    obtain ⟨c, hc, rfl⟩ := List.mem_map.mp hb
    rw [updRow_id] at hbne
    rw [updRow_eq_self hbne]
    exact hc

/-- C7: on a successful update, the article rows are exactly the stored
rows with the SET clause applied to the matching one (omitted title or
content stays byte-identical, supplied fields replace, `updated_at` is
refreshed); omitting properties leaves the property table untouched;
supplying a list (including the empty list) replaces that article's
property set with exactly the list, leaving other articles' properties
untouched; and `updated_at` strictly increases under the advanced clock,
whichever fields were supplied. -/
theorem C7_theorem {db : DB} {t : Nat} (h : Reachable db t)
    (input : UpdateArticleInput) (now : Nat) {a : ArticleRow}
    (ha : a ∈ db.articles) (hid : input.id = a.id) (hnow : t < now) :
    (updateArticle db input now).1.articles =
      db.articles.map (updRow input now) ∧
    (input.properties = none →
      (updateArticle db input now).1.props = db.props) ∧
    (∀ ps, input.properties = some ps →
      (((updateArticle db input now).1.props.filter
        (fun p => p.article_id == input.id)).map pairOf = ps ∧
      (updateArticle db input now).1.props.filter
        (fun p => !(p.article_id == input.id)) =
        db.props.filter (fun p => !(p.article_id == input.id)))) ∧
    (∀ b ∈ (updateArticle db input now).1.articles, b.id = a.id →
      b.title = input.title.getD a.title ∧
      b.content = input.content.getD a.content ∧
      b.created_at = a.created_at ∧ a.updated_at < b.updated_at) ∧
    (∀ b ∈ (updateArticle db input now).1.articles, b.id ≠ input.id →
      b ∈ db.articles) ∧
    (∃ awp, (updateArticle db input now).2 = Except.ok awp) := by
  have hwf := reachable_wf h
  have hrows := updated_rows hwf input now ha hid hnow
  have hmem1 : updRow input now a ∈
      (db.articles.map (updRow input now)).filter
        (fun x => x.id == input.id) := by
    rw [List.mem_filter]
    refine ⟨List.mem_map_of_mem _ ha, ?_⟩
    rw [updRow_id, beq_iff_eq]
    exact hid.symm
  have hart : (updateArticle db input now).1.articles =
      db.articles.map (updRow input now) := by
    simp only [updateArticle]
    split
    · rfl
    · split <;> rfl
  have hpropsnone : input.properties = none →
      (updateArticle db input now).1.props = db.props := by
    intro hn
    simp only [updateArticle, hn]
    split <;> rfl
  have hpropssome : ∀ ps, input.properties = some ps →
      (updateArticle db input now).1.props =
        db.props.filter (fun p => !(p.article_id == input.id)) ++
          mkPropRows db.nextPropId input.id now ps := by
    intro ps hps
    simp only [updateArticle, hps]
    cases hfe : (db.articles.map (updRow input now)).filter
        (fun x => x.id == input.id) with
    | nil =>
      rw [hfe] at hmem1
      cases hmem1
    | cons article tail => rfl
  have hok : ∃ awp, (updateArticle db input now).2 = Except.ok awp := by
    simp only [updateArticle]
    cases hfe : (db.articles.map (updRow input now)).filter
        (fun x => x.id == input.id) with
    | nil =>
      rw [hfe] at hmem1
      cases hmem1
    | cons article tail => exact ⟨_, rfl⟩
  refine ⟨hart, hpropsnone, ?_, ?_, ?_, hok⟩
  · intro ps hps
    rw [hpropssome ps hps]
    constructor
    · rw [List.filter_append]
      have hold : (db.props.filter
          (fun p => !(p.article_id == input.id))).filter
          (fun p => p.article_id == input.id) = [] := by
        rw [List.filter_filter, List.filter_eq_nil_iff]
        intro p hp
        cases hb : p.article_id == input.id <;> simp [hb]
      have hnew : (mkPropRows db.nextPropId input.id now ps).filter
          (fun p => p.article_id == input.id) =
          mkPropRows db.nextPropId input.id now ps := by
        rw [List.filter_eq_self]
        intro p hp
        rw [beq_iff_eq]
        exact mkPropRows_aid p hp
      rw [hold, hnew, List.nil_append, mkPropRows_map_pairOf]
    · rw [List.filter_append]
      have h1 : (db.props.filter
          (fun p => !(p.article_id == input.id))).filter
          (fun p => !(p.article_id == input.id)) =
          db.props.filter (fun p => !(p.article_id == input.id)) := by
        rw [List.filter_filter]
        apply List.filter_congr
        intro p hp
        cases hb : p.article_id == input.id <;> simp [hb]
      have h2 : (mkPropRows db.nextPropId input.id now ps).filter
          (fun p => !(p.article_id == input.id)) = [] := by
        rw [List.filter_eq_nil_iff]
        intro p hp
        have haid := mkPropRows_aid p hp
        simp [haid]
      rw [h1, h2, List.append_nil]
  · rw [hart]
    exact hrows.1
  · rw [hart]
    exact hrows.2

theorem pushProp_cons_ne {e : ArticleWithProperties}
    {l : List ArticleWithProperties} {aid : Nat} {pr : PropPair}
    (hne : (e.id == aid) = false) :
    pushProp (e :: l) aid pr = e :: pushProp l aid pr := by
  unfold pushProp
  rw [List.map_cons, hne]
  simp

theorem addRow_frame {e : ArticleWithProperties}
    {l : List ArticleWithProperties} (a : ArticleRow)
    (po : Option PropertyRow) (hne : a.id ≠ e.id) :
    addRow (e :: l) (a, po) = e :: addRow l (a, po) := by
  have hbeq : (e.id == a.id) = false :=
    beq_eq_false_iff_ne.mpr (fun h2 => hne h2.symm)
  unfold addRow
  simp only [List.any_cons, hbeq, Bool.false_or]
  cases po with
  | none =>
    cases hany : l.any (fun x => x.id == a.id) <;>
      simp [hany, List.cons_append]
  | some p =>
    cases hkeep : (p.id != 0 && p.property_name != "") <;>
      cases hany : l.any (fun x => x.id == a.id) <;>
        simp [hany, hkeep, List.cons_append, pushProp_cons_ne hbeq]

theorem foldl_addRow_frame {e : ArticleWithProperties}
    {l : List ArticleWithProperties}
    {rows : List (ArticleRow × Option PropertyRow)}
    (hrows : ∀ r ∈ rows, r.1.id ≠ e.id) :
    rows.foldl addRow (e :: l) = e :: rows.foldl addRow l := by
  induction rows generalizing l with
  | nil => rfl
  | cons r rest ih =>
    rw [List.foldl_cons, List.foldl_cons]
    obtain ⟨a, po⟩ := r
    rw [addRow_frame a po (hrows _ (List.mem_cons_self ..))]
    exact ih (fun r2 h2 => hrows r2 (List.mem_cons_of_mem _ h2))

theorem foldl_addRow_push {aid : Nat} (ps : List PropertyRow)
    (a : ArticleRow) (haid : a.id = aid) :
    ∀ e : ArticleWithProperties, e.id = aid →
      (∀ p ∈ ps, p.id ≠ 0 ∧ p.property_name ≠ "") →
      (ps.map (fun p => (a, some p))).foldl addRow [e] =
        [{ e with properties := e.properties ++ ps.map pairOf }] := by
  induction ps with
  | nil =>
    intro e heid hps
    simp
  | cons p rest ih =>
    intro e heid hps
    rw [List.map_cons, List.foldl_cons]
    have hany : ([e].any (fun x => x.id == a.id)) = true := by
      simp [heid, haid]
    have hp1 := hps p (List.mem_cons_self ..)
    have hkeep : (p.id != 0 && p.property_name != "") = true := by
      rw [Bool.and_eq_true]
      exact ⟨bne_iff_ne.mpr hp1.1, bne_iff_ne.mpr hp1.2⟩
    have step : addRow [e] (a, some p) =
        [{ e with properties := e.properties ++ [pairOf p] }] := by
      unfold addRow
      simp only [hany, if_true, hkeep]
      unfold pushProp
      simp [heid, haid]
    rw [step]
    rw [ih { e with properties := e.properties ++ [pairOf p] } heid
      (fun q hq => hps q (List.mem_cons_of_mem _ hq))]
    simp

theorem mem_group_fst {props : List PropertyRow} {b : ArticleRow}
    {r : ArticleRow × Option PropertyRow}
    (hr : r ∈ (if (props.filter (fun p => p.article_id == b.id)).isEmpty
      then [(b, (none : Option PropertyRow))]
      else (props.filter (fun p => p.article_id == b.id)).map
        (fun p => (b, some p)))) : r.1 = b := by
  split at hr
  · rw [List.mem_singleton] at hr
    subst hr
    rfl
  · obtain ⟨p, hp, rfl⟩ := List.mem_map.mp hr
    rfl

theorem foldl_addRow_group (a : ArticleRow) (props : List PropertyRow)
    (hps : ∀ p ∈ props.filter (fun p => p.article_id == a.id),
      p.id ≠ 0 ∧ p.property_name ≠ "") :
    ((if (props.filter (fun p => p.article_id == a.id)).isEmpty
      then [(a, (none : Option PropertyRow))]
      else (props.filter (fun p => p.article_id == a.id)).map
        (fun p => (a, some p))).foldl addRow []) =
      [⟨a.id, a.title, a.content, a.created_at, a.updated_at,
        (props.filter (fun p => p.article_id == a.id)).map pairOf⟩] := by
  cases hfil : props.filter (fun p => p.article_id == a.id) with
  | nil => rfl
  | cons p rest =>
    rw [if_neg (by simp)]
    rw [List.map_cons, List.foldl_cons]
    have hp1 : p.id ≠ 0 ∧ p.property_name ≠ "" := by
      apply hps
      rw [hfil]
      exact List.mem_cons_self ..
    have hkeep : (p.id != 0 && p.property_name != "") = true := by
      rw [Bool.and_eq_true]
      exact ⟨bne_iff_ne.mpr hp1.1, bne_iff_ne.mpr hp1.2⟩
    have step : addRow [] (a, some p) =
        [⟨a.id, a.title, a.content, a.created_at, a.updated_at,
          [pairOf p]⟩] := by
      unfold addRow
      simp only [List.any_nil, Bool.false_eq_true, if_false, hkeep,
        List.nil_append, if_true]
      unfold pushProp
      simp
    have hrest : ∀ q ∈ rest, q.id ≠ 0 ∧ q.property_name ≠ "" := by
      intro q hq
      apply hps
      rw [hfil]
      exact List.mem_cons_of_mem _ hq
    rw [step]
    rw [foldl_addRow_push rest a rfl
      ⟨a.id, a.title, a.content, a.created_at, a.updated_at, [pairOf p]⟩
      rfl hrest]
    simp

theorem getArticles_eq_aux (props : List PropertyRow)
    (arts : List ArticleRow)
    (hdis : arts.Pairwise (fun x y => x.id ≠ y.id))
    (hprops : ∀ p ∈ props, p.id ≠ 0 ∧ p.property_name ≠ "") :
    ((arts.flatMap (fun a =>
      if (props.filter (fun p => p.article_id == a.id)).isEmpty
      then [(a, (none : Option PropertyRow))]
      else (props.filter (fun p => p.article_id == a.id)).map
        (fun p => (a, some p)))).foldl addRow []) =
      arts.map (fun a =>
        ⟨a.id, a.title, a.content, a.created_at, a.updated_at,
          (props.filter (fun p => p.article_id == a.id)).map pairOf⟩) := by
  induction arts with
  | nil => rfl
  | cons a rest ih =>
    rw [List.flatMap_cons, List.foldl_append]
    rw [foldl_addRow_group a props
      (fun p hp => hprops p (List.mem_of_mem_filter hp))]
    rw [foldl_addRow_frame ?hne]
    · rw [ih (List.pairwise_cons.mp hdis).2]
      rfl
    case hne =>
      intro r hr
      obtain ⟨b, hb, hrb⟩ := List.mem_flatMap.mp hr
      have hfst : r.1 = b := mem_group_fst hrb
      rw [hfst]
      exact fun heq => (List.rel_of_pairwise_cons hdis hb) heq.symm

/-- C5: getArticles returns exactly the Article-with-properties view of
every stored article once, in table order (which is ascending id order at
every reachable state), each paired with its full current property set; an
article with no properties appears with the empty list. -/
theorem C5_theorem {db : DB} {t : Nat} (h : Reachable db t) :
    getArticles db = db.articles.map (awpOf db) ∧
    List.Pairwise (· < ·) ((getArticles db).map (fun e => e.id)) := by
  have hwf := reachable_wf h
  have hdis : db.articles.Pairwise (fun x y => x.id ≠ y.id) := by
    have hs := hwf.ids_sorted
    rw [List.pairwise_map] at hs
    exact hs.imp (fun hlt => Nat.ne_of_lt hlt)
  have hmain : getArticles db = db.articles.map (awpOf db) := by
    show (leftJoinRows db).foldl addRow [] = _
    exact getArticles_eq_aux db.props db.articles hdis
      (fun p hp => ⟨hwf.prop_id_ne p hp, hwf.prop_name_ne p hp⟩)
  refine ⟨hmain, ?_⟩
  rw [hmain, List.map_map]
  exact hwf.ids_sorted

/-- C5 at a concrete reachable state: two articles, the first with one
property, the second with none. -/
theorem C5_witness :
    getArticles (createArticle (createArticle emptyDB
      ⟨"A", "", [⟨"x", "1"⟩]⟩ 1).1 ⟨"B", "", []⟩ 2).1 =
      (createArticle (createArticle emptyDB ⟨"A", "", [⟨"x", "1"⟩]⟩ 1).1
        ⟨"B", "", []⟩ 2).1.articles.map
        (awpOf (createArticle (createArticle emptyDB
          ⟨"A", "", [⟨"x", "1"⟩]⟩ 1).1 ⟨"B", "", []⟩ 2).1) := by
  have h1 : Reachable (createArticle emptyDB ⟨"A", "", [⟨"x", "1"⟩]⟩ 1).1 1 :=
    Reachable.create Reachable.init (by omega) ⟨by decide, by decide⟩
  have h2 : Reachable (createArticle (createArticle emptyDB
      ⟨"A", "", [⟨"x", "1"⟩]⟩ 1).1 ⟨"B", "", []⟩ 2).1 2 :=
    Reachable.create h1 (by omega) ⟨by decide, by decide⟩
  exact (C5_theorem h2).1

/-- C7 at a concrete input: an update supplying only the title; the
article rows are the mapped SET-clause rows (content untouched) and the
property table is byte-identical. -/
theorem C7_witness :
    (updateArticle (createArticle emptyDB ⟨"A", "c0", [⟨"p", "v"⟩]⟩ 1).1
      ⟨1, some "X", none, none⟩ 5).1.articles =
      (createArticle emptyDB ⟨"A", "c0", [⟨"p", "v"⟩]⟩ 1).1.articles.map
        (updRow ⟨1, some "X", none, none⟩ 5) ∧
    (updateArticle (createArticle emptyDB ⟨"A", "c0", [⟨"p", "v"⟩]⟩ 1).1
      ⟨1, some "X", none, none⟩ 5).1.props =
      (createArticle emptyDB ⟨"A", "c0", [⟨"p", "v"⟩]⟩ 1).1.props := by
  have h1 : Reachable (createArticle emptyDB
      ⟨"A", "c0", [⟨"p", "v"⟩]⟩ 1).1 1 :=
    Reachable.create Reachable.init (by omega) ⟨by decide, by decide⟩
  have hc := C7_theorem h1 ⟨1, some "X", none, none⟩ 5
    (a := ⟨1, "A", "c0", 1, 1⟩) (by decide) (by decide) (by omega)
  exact ⟨hc.1, hc.2.1 rfl⟩
